import Mathlib

/-!
Verification development for the exabgp_notify.py log-notification script
(`src/Linux/wanguard/exabgp_notify/usr/local/scripts/exabgp_notify.py`;
the `wnaguard` copy has the identical matcher, noise-control and gate code).

The script reads log lines from stdin, extracts route added/removed events
with the regex `RE_LINE`, filters them through a TTL deduplicator
(`make_dedup`) and a sliding-window throttler (`make_throttler`), and
dispatches notifications for the events that pass both gates.

Times are the integer seconds of `int(time.time())`, modelled as `Int`
(configuration values such as `ttl_sec` may be negative).
-/

/-! ## Character classes (ASCII fragment of Python's regex classes) -/

/-- Python regex `\w` on the ASCII inputs this script consumes:
letters, digits and underscore. -/
def isWordC (c : Char) : Bool := c.isAlphanum || c = '_'

/-- Python regex `\s` / `str.strip` whitespace (ASCII):
space, tab, newline, carriage return, vertical tab, form feed. -/
def isSpaceC (c : Char) : Bool :=
  c = ' ' || c = '\t' || c = '\n' || c = '\r' || c = '\x0b' || c = '\x0c'

/-- Python `str.strip()`: drop leading and trailing whitespace. -/
def pyStrip (s : String) : String :=
  String.mk (((s.data.dropWhile isSpaceC).reverse.dropWhile isSpaceC).reverse)

/-- Python `str.lower()` on ASCII text. -/
def pyLower (s : String) : String := String.mk (s.data.map Char.toLower)

/-! ## Noise control: deduplicator (`make_dedup`)

The Python closure keeps `cache : dict key -> expiry` (insertion ordered).
`allowed(key)` at integer time `t`:
  1. pop every entry whose expiry `exp <= t` (iterating over a snapshot,
     so the surviving entries keep their order: a `filter`),
  2. if `key` still present, return `False` and change nothing else,
  3. otherwise store `key -> t + ttl` (appended at the end, the key is
     absent) and return `True`.
-/

/-- Step 1 of `make_dedup.allowed`: evict the entries with `exp <= t`,
i.e. keep exactly those with `t < exp`. -/
def dedupEvict (t : Int) (cache : List (String × Int)) : List (String × Int) :=
  cache.filter (fun p => decide (t < p.2))

/-- The call `make_dedup(ttl_sec).allowed(key)` evaluated at time `t` on table
`cache`; returns the boolean result and the updated table. -/
def dedupAllowed (ttl : Int) (key : String) (t : Int)
    (cache : List (String × Int)) : Bool × List (String × Int) :=
  let c := dedupEvict t cache
  if c.any (fun p => p.1 == key) then (false, c)
  else (true, c ++ [(key, t + ttl)])

/-- Run the deduplicator over a list of `(time, key)` calls, returning the
list of results (one boolean per call). -/
def dedupResults (ttl : Int) : List (Int × String) → List (String × Int) → List Bool
  | [], _ => []
  | (t, k) :: rest, c =>
    let r := dedupAllowed ttl k t c
    r.1 :: dedupResults ttl rest r.2

/-! ## Noise control: throttler (`make_throttler`)

The Python closure keeps `events : deque` of admission times (appended in
call order). `allowed()` at integer time `t`:
  1. `while events and (t - events[0]) > window_sec: events.popleft()`,
     a `dropWhile` from the oldest end,
  2. if `len(events) >= max_events`, return `False` without recording,
  3. otherwise append `t` and return `True`.
-/

/-- The call `make_throttler(window_sec, max_events).allowed()` evaluated at time
`t` on the recorded timestamps `events`. -/
def throttleAllowed (window maxE : Int) (t : Int) (events : List Int) :
    Bool × List Int :=
  let es := events.dropWhile (fun e => decide (window < t - e))
  if maxE ≤ (es.length : Int) then (false, es)
  else (true, es ++ [t])

/-- Run the throttler over a list of call times, returning the results. -/
def throttleResults (window maxE : Int) : List Int → List Int → List Bool
  | [], _ => []
  | t :: ts, es =>
    let r := throttleAllowed window maxE t es
    r.1 :: throttleResults window maxE ts r.2

/-- Run the throttler over a list of call times, returning the final
recorded-timestamp state. -/
def throttleRun (window maxE : Int) : List Int → List Int → List Int
  | [], es => es
  | t :: ts, es => throttleRun window maxE ts (throttleAllowed window maxE t es).2

/-! ## Line matcher (`RE_LINE`)

`RE_LINE = re.compile(r'^(?P<ts>\w{3},\s+\d{2}\s+\w{3}\s+\d{4}\s+\d{2}:\d{2}:\d{2})'
    r'.*?\bapi\s+route\s+(?P<action>added|removed)\s+to\s+neighbor\s+'
    r'(?P<neighbor>\d{1,3}(?:\.\d{1,3}){3}).*?:\s+'
    r'(?P<prefix>\d{1,3}(?:\.\d{1,3}){3}/\d{1,2})\s+next-hop\s+'
    r'(?P<nexthop>\d{1,3}(?:\.\d{1,3}){3})\s+local-preference\s+(?P<lpref>\d+)'
    r'\s+community\s+(?P<comm>[\d:]+)', re.IGNORECASE)`
applied with `RE_LINE.search(line)`.

The pattern is anchored by `^` (no MULTILINE, so only position 0 matches),
so `search` is a match at the start of the line.  The embedding below is a
backtracking matcher specialised to this pattern, with Python's
first-success order:
  * the two lazy gaps `.*?` try the shortest extension first (functions
    `findApi` and `findColon` below);
  * every greedy quantifier of the pattern is immediately followed by a
    token disjoint from its character class (`\s+` by a non-space literal
    or digit, `\d+` and `\d{1,2}` by whitespace or `/`, `\d{1,3}` inside an
    address by `.`, and the final `[\d:]+` by nothing), except for the last
    octet of `neighbor`, which is followed by `.*?` — and there a shorter
    octet choice shifts the skipped digits into the gap without changing
    where the following `:` can be found.  In every case the first
    (maximal) choice succeeds exactly when any choice does and yields the
    same captures, so maximal munch reproduces the regex semantics.
-/

/-- Case-insensitive literal (Python `re.IGNORECASE` on ASCII): consume
the pattern characters, returning the raw consumed text and the rest. -/
def litCI : List Char → List Char → Option (List Char × List Char)
  | [], s => some ([], s)
  | _ :: _, [] => none
  | p :: ps, c :: cs =>
    if c.toLower = p.toLower then
      match litCI ps cs with
      | some (t, r) => some (c :: t, r)
      | none => none
    else none

/-- A single expected character (a literal such as `.` `/` `,` `:`). -/
def expectChar (c : Char) : List Char → Option (List Char)
  | x :: xs => if x = c then some xs else none
  | [] => none

/-- Exactly `n` characters of class `p` (the regex `p{n}`). -/
def exactN (p : Char → Bool) : Nat → List Char → Option (List Char × List Char)
  | 0, s => some ([], s)
  | _ + 1, [] => none
  | n + 1, c :: cs =>
    if p c then
      match exactN p n cs with
      | some (t, r) => some (c :: t, r)
      | none => none
    else none

/-- One or more characters of class `p`, maximal munch (the regex `p+`;
see the header comment for why maximal munch is exact here). -/
def plus1 (p : Char → Bool) (s : List Char) : Option (List Char × List Char) :=
  let t := s.takeWhile p
  if t.isEmpty then none else some (t, s.dropWhile p)

/-- One to `m` digits, maximal munch (the regex `\d{1,m}`). -/
def digits1To (m : Nat) (s : List Char) : Option (List Char × List Char) :=
  let t := (s.takeWhile Char.isDigit).take m
  if t.isEmpty then none else some (t, s.drop t.length)

/-- Dotted quad `\d{1,3}(?:\.\d{1,3}){3}`, returning the consumed text. -/
def ip4 (s : List Char) : Option (List Char × List Char) := do
  let (a, r1) ← digits1To 3 s
  let r2 ← expectChar '.' r1
  let (b, r3) ← digits1To 3 r2
  let r4 ← expectChar '.' r3
  let (c, r5) ← digits1To 3 r4
  let r6 ← expectChar '.' r5
  let (d, r7) ← digits1To 3 r6
  some (a ++ '.' :: b ++ '.' :: c ++ '.' :: d, r7)

/-- The date half of the timestamp group: `\w{3},\s+\d{2}\s+\w{3}\s+`. -/
def matchTsDate (s : List Char) : Option (List Char × List Char) := do
  let (w1, r1) ← exactN isWordC 3 s
  let r2 ← expectChar ',' r1
  let (s1, r3) ← plus1 isSpaceC r2
  let (d1, r4) ← exactN Char.isDigit 2 r3
  let (s2, r5) ← plus1 isSpaceC r4
  let (w2, r6) ← exactN isWordC 3 r5
  let (s3, r7) ← plus1 isSpaceC r6
  some (w1 ++ ',' :: s1 ++ d1 ++ s2 ++ w2 ++ s3, r7)

/-- The time half of the timestamp group: `\d{4}\s+\d{2}:\d{2}:\d{2}`. -/
def matchTsTime (s : List Char) : Option (List Char × List Char) := do
  let (d2, r8) ← exactN Char.isDigit 4 s
  let (s4, r9) ← plus1 isSpaceC r8
  let (h1, r10) ← exactN Char.isDigit 2 r9
  let r11 ← expectChar ':' r10
  let (h2, r12) ← exactN Char.isDigit 2 r11
  let r13 ← expectChar ':' r12
  let (h3, r14) ← exactN Char.isDigit 2 r13
  some (d2 ++ s4 ++ h1 ++ ':' :: h2 ++ ':' :: h3, r14)

/-- The anchored timestamp group
`\w{3},\s+\d{2}\s+\w{3}\s+\d{4}\s+\d{2}:\d{2}:\d{2}` (its two halves
in sequence). -/
def matchTs (s : List Char) : Option (List Char × List Char) := do
  let (a, r1) ← matchTsDate s
  let (b, r2) ← matchTsTime r1
  some (a ++ b, r2)

/-- The action alternation `added|removed` (in Python's order), returning
the raw matched text. -/
def matchActionWord (s : List Char) : Option (List Char × List Char) :=
  (litCI "added".data s).orElse (fun _ => litCI "removed".data s)

/-- The clause `\s+(?P<prefix>ip/\d{1,2})`: whitespace, then the CIDR
form.  Returns the `prefix` capture and the rest. -/
def parsePrefixPart (s : List Char) : Option (List Char × List Char) := do
  let (_, r1) ← plus1 isSpaceC s
  let (ipp, r2) ← ip4 r1
  let r3 ← expectChar '/' r2
  let (len2, r4) ← digits1To 2 r3
  some (ipp ++ '/' :: len2, r4)

/-- The clause `\s+next-hop\s+(?P<nexthop>ip)`. -/
def parseNextHopPart (s : List Char) : Option (List Char × List Char) := do
  let (_, r1) ← plus1 isSpaceC s
  let (_, r2) ← litCI "next-hop".data r1
  let (_, r3) ← plus1 isSpaceC r2
  let (nh, r4) ← ip4 r3
  some (nh, r4)

/-- The clause `\s+local-preference\s+(?P<lpref>\d+)`. -/
def parseLprefPart (s : List Char) : Option (List Char × List Char) := do
  let (_, r1) ← plus1 isSpaceC s
  let (_, r2) ← litCI "local-preference".data r1
  let (_, r3) ← plus1 isSpaceC r2
  let (lp, r4) ← plus1 Char.isDigit r3
  some (lp, r4)

/-- The final clause `\s+community\s+(?P<comm>[\d:]+)`. -/
def parseCommPart (s : List Char) : Option (List Char × List Char) := do
  let (_, r1) ← plus1 isSpaceC s
  let (_, r2) ← litCI "community".data r1
  let (_, r3) ← plus1 isSpaceC r2
  let (cm, r4) ← plus1 (fun c => c.isDigit || c = ':') r3
  some (cm, r4)

/-- The tail after the second lazy gap's `:`: the four clauses above in
sequence; trailing text after the community token is ignored (the pattern
ends there).  Returns `(prefix, nexthop, lpref, comm)`. -/
def parseAfterColon (s : List Char) :
    Option (List Char × List Char × List Char × List Char) := do
  let (pf, r1) ← parsePrefixPart s
  let (nh, r2) ← parseNextHopPart r1
  let (lp, r3) ← parseLprefPart r2
  let (cm, _) ← parseCommPart r3
  some (pf, nh, lp, cm)

/-- The lazy gap `.*?:` after the neighbor group: scan for a `:` (shortest
gap first, gap characters may not be `\n`) such that `parseAfterColon`
succeeds on the rest. -/
def findColon : List Char → Option (List Char × List Char × List Char × List Char)
  | [] => none
  | c :: cs =>
    (if c = ':' then parseAfterColon cs else none).orElse
      (fun _ => if c = '\n' then none else findColon cs)

/-- The literal clause `api\s+route\s+` (after the word boundary). -/
def apiRouteLit (s : List Char) : Option (List Char) := do
  let (_, r1) ← litCI "api".data s
  let (_, r2) ← plus1 isSpaceC r1
  let (_, r3) ← litCI "route".data r2
  let (_, r4) ← plus1 isSpaceC r3
  some r4

/-- The literal clause `\s+to\s+neighbor\s+` (after the action word). -/
def toNeighborLit (s : List Char) : Option (List Char) := do
  let (_, r1) ← plus1 isSpaceC s
  let (_, r2) ← litCI "to".data r1
  let (_, r3) ← plus1 isSpaceC r2
  let (_, r4) ← litCI "neighbor".data r3
  let (_, r5) ← plus1 isSpaceC r4
  some r5

/-- The deterministic part from the `api` literal on:
`api\s+route\s+(?P<action>added|removed)\s+to\s+neighbor\s+(?P<neighbor>ip)`
followed by the `.*?:` gap and the tail.  Returns
`(action, neighbor, prefix, nexthop, lpref, comm)`. -/
def afterApi (s : List Char) :
    Option (List Char × List Char × List Char × List Char × List Char × List Char) := do
  let r1 ← apiRouteLit s
  let (act, r2) ← matchActionWord r1
  let r3 ← toNeighborLit r2
  let (nb, r4) ← ip4 r3
  let (pf, nh, lp, cm) ← findColon r4
  some (act, nb, pf, nh, lp, cm)

/-- The first lazy gap `.*?\bapi`: scan for a position (shortest gap first,
gap characters may not be `\n`) where the word boundary `\b` holds — the
next literal is the word character `a`, so the boundary holds exactly when
the preceding character `prev` is a non-word character — and `afterApi`
succeeds. -/
def findApi (prev : Char) :
    List Char → Option (List Char × List Char × List Char × List Char × List Char × List Char)
  | [] => none
  | c :: cs =>
    (if isWordC prev then none else afterApi (c :: cs)).orElse
      (fun _ => if c = '\n' then none else findApi c cs)

/-- The typed route event extracted from one matched line: the seven named
groups of `RE_LINE`, as raw matched text.  (`pfx` stands for the source's
group name `prefix`.) -/
structure RouteMatch where
  ts : String
  action : String
  neighbor : String
  pfx : String
  nexthop : String
  lpref : String
  comm : String
deriving DecidableEq, Repr

/-- Full matching `RE_LINE.search(line)`: the timestamp group must match at the start of
the line (the pattern is `^`-anchored), then the two lazy gaps are resolved
in Python's first-success order.  The character preceding the first gap is
the last character of the timestamp (always a digit). -/
def matchLine (line : String) : Option RouteMatch := do
  let (tsC, rest) ← matchTs line.data
  let (act, nb, pf, nh, lp, cm) ← findApi (tsC.reverse.headD '0') rest
  some ⟨String.mk tsC, String.mk act, String.mk nb, String.mk pf,
        String.mk nh, String.mk lp, String.mk cm⟩

/-! ## Pipeline (`main`)

`main` resolves the config path from `sys.argv[1:]`, builds the two
noise-control closures, and then for each stdin line: strips it, skips it
if empty, matches `RE_LINE`, skips non-matches, discards actions outside
`only_actions` (compared lowercased), builds the dedup key
`f"{action}|{prefix}|{neighbor}"` from the raw captures, and runs the two
gates in order — `if not allowed_by_dedup(key): continue` then
`if not allowed_by_rate(): continue` — before dispatching (or, in dry-run
mode, tracing; both gates are evaluated identically either way).
-/

/-- The dedup key `f"{d['action']}|{d['prefix']}|{d['neighbor']}"`, built
from the raw captured text (no case normalization). -/
def dedupKey (d : RouteMatch) : String :=
  d.action ++ "|" ++ d.pfx ++ "|" ++ d.neighbor

/-- The two noise-control tables owned by the pipeline for the process
lifetime: the dedup cache and the throttler's recorded timestamps. -/
structure ProcState where
  dedup : List (String × Int)
  rate : List Int
deriving DecidableEq, Repr

/-- What `main` does with one line. -/
inductive Outcome
  | skippedEmpty
  | noMatch
  | filteredAction
  | dedupSuppressed
  | rateSuppressed
  | dispatched
deriving DecidableEq, Repr

/-- The two gates of the loop body in their fixed order: dedup first
(`allowed_by_dedup(key)` is always called, so its table update always
happens), rate second (`allowed_by_rate()` is called only when the dedup
gate admits). -/
def noiseGates (ttl window maxE : Int) (t : Int) (key : String)
    (s : ProcState) : Outcome × ProcState :=
  let d := dedupAllowed ttl key t s.dedup
  if d.1 = false then (Outcome.dedupSuppressed, ⟨d.2, s.rate⟩)
  else
    let r := throttleAllowed window maxE t s.rate
    if r.1 = false then (Outcome.rateSuppressed, ⟨d.2, r.2⟩)
    else (Outcome.dispatched, ⟨d.2, r.2⟩)

/-- Run the gates over a list of `(time, key)` events, returning the
outcomes and the final state. -/
def noiseRun (ttl window maxE : Int) :
    List (Int × String) → ProcState → List Outcome × ProcState
  | [], s => ([], s)
  | (t, k) :: rest, s =>
    let r := noiseGates ttl window maxE t k s
    let q := noiseRun ttl window maxE rest r.2
    (r.1 :: q.1, q.2)

/-- One iteration of the stdin loop of `main`, at time `t`. -/
def processLine (onlyActions : List String) (ttl window maxE : Int)
    (t : Int) (raw : String) (s : ProcState) : Outcome × ProcState :=
  let line := pyStrip raw
  if line = "" then (Outcome.skippedEmpty, s)
  else
    match matchLine line with
    | none => (Outcome.noMatch, s)
    | some d =>
      if onlyActions.contains (pyLower d.action) then
        noiseGates ttl window maxE t (dedupKey d) s
      else (Outcome.filteredAction, s)

/-- The stdin loop of `main` over a list of `(arrival time, raw line)`
pairs, collecting each line's outcome. -/
def processLines (onlyActions : List String) (ttl window maxE : Int) :
    List (Int × String) → ProcState → List Outcome × ProcState
  | [], s => ([], s)
  | (t, ln) :: rest, s =>
    let r := processLine onlyActions ttl window maxE t ln s
    let q := processLines onlyActions ttl window maxE rest r.2
    (r.1 :: q.1, q.2)

/-! ## Configuration and CLI -/

/-- The `DEFAULT_CONFIG_PATH` constant of the script. -/
def DEFAULT_CONFIG_PATH : String := "/etc/exabgp-notify/exabgp-notify.cfg"

/-- Python `value.split(",")`: split at every comma (empty pieces kept). -/
def splitComma : List Char → List Char → List String
  | [], acc => [String.mk acc.reverse]
  | c :: cs, acc =>
    if c = ',' then String.mk acc.reverse :: splitComma cs []
    else splitComma cs (c :: acc)

/-- The `ONLY_ACTIONS` parser of `main`:
`{x.strip().lower() for x in value.split(",") if x.strip()}` (a set; its
membership is what matters, modelled as a list). -/
def parseOnlyActions (raw : String) : List String :=
  ((splitComma raw.data []).filter (fun x => pyStrip x != "")).map
    (fun x => pyLower (pyStrip x))

/-- The default `ONLY_ACTIONS` value `"added,removed"` parsed. -/
def defaultOnlyActions : List String := parseOnlyActions "added,removed"

/-- The `--config` handling at the top of `main`:
`if "--config" in argv: try: cfg_path = argv[argv.index("--config") + 1]`
`except Exception: sys.exit(2)`.  `none` models `sys.exit(2)` (the only
possible exception is the `IndexError` of a missing following value);
otherwise the resolved path, defaulting to `DEFAULT_CONFIG_PATH`. -/
def resolveConfigPath (argv : List String) : Option String :=
  if "--config" ∈ argv then
    match argv[argv.indexOf "--config" + 1]? with
    | some p => some p
    | none => none
  else some DEFAULT_CONFIG_PATH

/-- Running `main` under the default noise-control configuration
(`THROTTLE_WINDOW_SEC=60`, `THROTTLE_MAX=30`, `DEDUP_TTL_SEC=60`,
`ONLY_ACTIONS=added,removed`): config-path resolution happens before the
stdin loop, so a missing `--config` value exits with status 2 (modelled as
`Except.error 2`) before any line is read. -/
def runMain (argv : List String) (lines : List (Int × String)) :
    Except Nat (List Outcome) :=
  match resolveConfigPath argv with
  | none => Except.error 2
  | some _ => Except.ok (processLines defaultOnlyActions 60 60 30 lines ⟨[], []⟩).1

/-! ## Helper lemmas -/

/-- Membership in the evicted dedup table: exactly the entries whose
stored expiry is strictly greater than the current time survive. -/
theorem dedupEvict_mem (t : Int) (c : List (String × Int)) (p : String × Int) :
    p ∈ dedupEvict t c ↔ p ∈ c ∧ t < p.2 := by
  simp [dedupEvict, List.mem_filter]

/-- If the dedup gate admits, the new table is the evicted table with the
key appended, and the evicted table holds no entry for the key. -/
theorem dedupAllowed_true_elim (ttl : Int) (key : String) (t : Int)
    (c : List (String × Int)) (h : (dedupAllowed ttl key t c).1 = true) :
    (dedupAllowed ttl key t c).2 = dedupEvict t c ++ [(key, t + ttl)] ∧
    ∀ p ∈ dedupEvict t c, p.1 ≠ key := by
  by_cases hany : (dedupEvict t c).any (fun p => p.1 == key) = true
  · simp [dedupAllowed, hany] at h
  · refine ⟨by simp [dedupAllowed, hany], ?_⟩
    intro p hp
    simp only [List.any_eq_true, beq_iff_eq, not_exists, not_and] at hany
    push_neg at hany
    exact hany p hp

/-- On a list sorted by arrival time, dropping the over-age timestamps
from the oldest end removes exactly the timestamps older than the
window. -/
theorem dropWhile_aged_eq_filter (t window : Int) :
    ∀ es : List Int, List.Pairwise (fun a b => a ≤ b) es →
      es.dropWhile (fun e => decide (window < t - e)) =
      es.filter (fun e => decide (t - e ≤ window)) := by
  intro es
  induction es with
  | nil => intro _; rfl
  | cons a l ih =>
    intro hp
    rw [List.pairwise_cons] at hp
    rw [List.dropWhile_cons, List.filter_cons]
    by_cases ha : window < t - a
    · have hta : ¬ (t - a ≤ window) := by omega
      rw [if_pos (by simpa using ha), if_neg (by simpa using hta)]
      exact ih hp.2
    · have hta : t - a ≤ window := by omega
      rw [if_neg (by simpa using ha), if_pos (by simpa using hta)]
      congr 1
      symm
      rw [List.filter_eq_self]
      intro b hb
      have : a ≤ b := hp.1 b hb
      simp only [decide_eq_true_eq]
      omega

/-- One throttler call never grows the recorded-timestamp list beyond
`max_events` (when it was within the bound before). -/
theorem throttleRun_length_aux (window maxE : Int) :
    ∀ (ts es : List Int), (es.length : Int) ≤ maxE →
      (((throttleRun window maxE ts es).length : Int)) ≤ maxE := by
  intro ts
  induction ts with
  | nil => intro es h; exact h
  | cons t rest ih =>
    intro es h
    show ((throttleRun window maxE rest (throttleAllowed window maxE t es).2).length : Int) ≤ maxE
    apply ih
    have hlen : ((es.dropWhile (fun e => decide (window < t - e))).length : Int) ≤ (es.length : Int) := by
      exact_mod_cast (List.dropWhile_sublist _).length_le
    by_cases hc : maxE ≤ ((es.dropWhile (fun e => decide (window < t - e))).length : Int)
    · simp only [throttleAllowed, hc, if_true]
      omega
    · simp only [throttleAllowed, hc, if_false]
      simp only [List.length_append, List.length_singleton]
      push_cast
      omega

/-- The deduplicator produces one boolean per call. -/
theorem dedupResults_length (ttl : Int) :
    ∀ (calls : List (Int × String)) (c : List (String × Int)),
      (dedupResults ttl calls c).length = calls.length := by
  intro calls
  induction calls with
  | nil => intro c; rfl
  | cons q rest ih => intro c; simp [dedupResults, ih]

/-- With non-positive TTL every stored expiry is at most its admission
time, so as long as call times never decrease the lazy sweep empties the
table and every call admits. -/
theorem dedupResults_all_true_aux (ttl : Int) (httl : ttl ≤ 0) :
    ∀ (calls : List (Int × String)) (c : List (String × Int)),
      List.Chain' (fun a b => a.1 ≤ b.1) calls →
      (∀ p ∈ c, ∀ q ∈ calls.head?, p.2 ≤ q.1) →
      ∀ b ∈ dedupResults ttl calls c, b = true := by
  intro calls
  induction calls with
  | nil => intro c _ _ b hb; simp [dedupResults] at hb
  | cons q rest ih =>
    intro c hchain hbound b hb
    obtain ⟨t, k⟩ := q
    have hc : ∀ p ∈ c, p.2 ≤ t := by
      intro p hp
      exact hbound p hp (t, k) (by simp)
    have hevict : dedupEvict t c = [] := by
      rw [dedupEvict, List.filter_eq_nil_iff]
      intro p hp
      have := hc p hp
      simp only [decide_eq_true_eq]
      omega
    have hstep : dedupAllowed ttl k t c = (true, [(k, t + ttl)]) := by
      rw [dedupAllowed, hevict]
      simp
    rw [List.chain'_cons'] at hchain
    simp only [dedupResults, hstep] at hb
    rw [List.mem_cons] at hb
    rcases hb with hb | hb
    · exact hb
    · refine ih [(k, t + ttl)] hchain.2 ?_ b hb
      intro p hp q hq
      simp only [List.mem_singleton] at hp
      subst hp
      have := hchain.1 q hq
      simp only at this
      omega

/-! ## Claims -/

/-- C1 counterexample: with `ttl = 60` the key `"k"` admitted at `T = 0`
is admitted again at `t = 60`, although `60` lies in the interval
`(T, T + ttl]` where the claim requires suppression: the entry's stored
expiry is `T + ttl = 60` and the lazy sweep evicts entries with
`expiry ≤ now`, so the entry is already gone at exactly `T + ttl`. -/
theorem c1_dedup_interval_counterexample :
    (0 : Int) < 60 ∧ ((0 : Int) < 60 ∧ (60 : Int) ≤ 0 + 60) ∧
    (dedupAllowed 60 "k" 0 []).1 = true ∧
    (dedupAllowed 60 "k" 60 (dedupAllowed 60 "k" 0 []).2).1 = true := by
  decide

/-- C1 (amended): for the deduplicator with positive ttl, a key admitted
at time `T` is suppressed by `admit(key)` at every time in the OPEN
interval `(T, T + ttl)`, and a call with the same key at any time
`≥ T + ttl` is admitted again; eviction removes exactly the entries whose
stored expiry is less than or equal to the current time. -/
theorem c1_dedup_ttl_window (ttl T : Int) (key : String)
    (cache : List (String × Int)) (_hpos : 0 < ttl)
    (hadm : (dedupAllowed ttl key T cache).1 = true) :
    (∀ t, T < t → t < T + ttl →
       (dedupAllowed ttl key t (dedupAllowed ttl key T cache).2).1 = false) ∧
    (∀ t, T + ttl ≤ t →
       (dedupAllowed ttl key t (dedupAllowed ttl key T cache).2).1 = true) ∧
    (∀ (t : Int) (c : List (String × Int)) (p : String × Int),
       p ∈ dedupEvict t c ↔ p ∈ c ∧ t < p.2) := by
  obtain ⟨hs1, hnone⟩ := dedupAllowed_true_elim ttl key T cache hadm
  refine ⟨?_, ?_, fun t c p => dedupEvict_mem t c p⟩
  · intro t h1 h2
    rw [hs1]
    have hmem : (key, T + ttl) ∈ dedupEvict t (dedupEvict T cache ++ [(key, T + ttl)]) := by
      rw [dedupEvict_mem]
      constructor
      · simp [List.mem_append]
      · simpa using h2
    have hany : (dedupEvict t (dedupEvict T cache ++ [(key, T + ttl)])).any
        (fun p => p.1 == key) = true := by
      rw [List.any_eq_true]
      exact ⟨(key, T + ttl), hmem, by simp⟩
    simp [dedupAllowed, hany]
  · intro t h3
    rw [hs1]
    have hany : (dedupEvict t (dedupEvict T cache ++ [(key, T + ttl)])).any
        (fun p => p.1 == key) = false := by
      rw [Bool.eq_false_iff]
      intro habs
      rw [List.any_eq_true] at habs
      obtain ⟨p, hp, hpk⟩ := habs
      rw [dedupEvict_mem, List.mem_append] at hp
      rcases hp with ⟨hp | hp, hlt⟩
      · exact hnone p hp (by simpa using hpk)
      · simp only [List.mem_singleton] at hp
        subst hp
        simp only at hlt
        omega
    simp [dedupAllowed, hany]

/-- C1 witness: with `ttl = 60`, key `"k"` admitted at `T = 0` on the
empty table, the amended theorem gives suppression at `t = 30` and
re-admission at `t = 60`. -/
theorem c1_dedup_ttl_window_witness :
    (0 : Int) < 60 ∧ (dedupAllowed 60 "k" 0 []).1 = true ∧
    (dedupAllowed 60 "k" 30 (dedupAllowed 60 "k" 0 []).2).1 = false ∧
    (dedupAllowed 60 "k" 60 (dedupAllowed 60 "k" 0 []).2).1 = true :=
  ⟨by decide, by decide,
   (c1_dedup_ttl_window 60 0 "k" [] (by decide) (by decide)).1 30
     (by decide) (by decide),
   (c1_dedup_ttl_window 60 0 "k" [] (by decide) (by decide)).2.1 60 (by decide)⟩

/-- C2: the throttler with `window_sec = 60`, `max_events = 3` admits the
calls at `t = 0, 1, 2`, suppresses the call at `t = 3`, and admits a
fifth call at `t = 61`; in general (on a time-sorted state, which is how
the deque is built) one call first evicts exactly the timestamps whose age
strictly exceeds the window, then returns `false` without recording when
the remaining count is at least `max_events`, and otherwise records the
current timestamp and returns `true`. -/
theorem c2_throttle_spec (window maxE t : Int) (es : List Int)
    (hsorted : List.Pairwise (fun a b => a ≤ b) es) :
    (throttleResults 60 3 [0, 1, 2, 3] [] = [true, true, true, false] ∧
     (throttleAllowed 60 3 61 (throttleRun 60 3 [0, 1, 2, 3] [])).1 = true) ∧
    throttleAllowed window maxE t es =
      (if maxE ≤ ((es.filter (fun e => decide (t - e ≤ window))).length : Int)
       then (false, es.filter (fun e => decide (t - e ≤ window)))
       else (true, es.filter (fun e => decide (t - e ≤ window)) ++ [t])) := by
  refine ⟨⟨by decide, by decide⟩, ?_⟩
  rw [throttleAllowed, dropWhile_aged_eq_filter t window es hsorted]

/-- C2 witness: the general clause applied to the sorted state `[0, 5]`
at `t = 61` with `window = 60`, `max = 3`: the timestamp `0` (age 61) is
evicted, `5` (age 56) is kept, the count `1` is below the cap, so the
call records `61` and admits. -/
theorem c2_throttle_spec_witness :
    List.Pairwise (fun a b => a ≤ b) ([0, 5] : List Int) ∧
    throttleAllowed 60 3 61 [0, 5] =
      (if (3 : Int) ≤ ((([0, 5] : List Int).filter
            (fun e => decide ((61 : Int) - e ≤ 60))).length : Int)
       then (false, ([0, 5] : List Int).filter (fun e => decide ((61 : Int) - e ≤ 60)))
       else (true, ([0, 5] : List Int).filter
              (fun e => decide ((61 : Int) - e ≤ 60)) ++ [61])) :=
  ⟨by decide, (c2_throttle_spec 60 3 61 [0, 5] (by decide)).2⟩

/-- C3: for every sequence of throttler calls starting from the empty
state, with non-negative `max_events`, the number of retained timestamps
never exceeds `max_events` (every prefix of calls is itself such a
sequence, so the bound holds after each call). -/
theorem c3_throttle_count_invariant (window maxE : Int) (hmax : 0 ≤ maxE)
    (ts : List Int) :
    ((throttleRun window maxE ts []).length : Int) ≤ maxE :=
  throttleRun_length_aux window maxE ts [] (by simpa using hmax)

/-- C3 witness: four calls with `max_events = 2` leave at most two
recorded timestamps. -/
theorem c3_throttle_count_invariant_witness :
    (0 : Int) ≤ 2 ∧ ((throttleRun 60 2 [0, 1, 2, 3] []).length : Int) ≤ 2 :=
  ⟨by decide, c3_throttle_count_invariant 60 2 (by decide) [0, 1, 2, 3]⟩

/-- C4: the dedup gate runs strictly before the rate gate: when the dedup
gate suppresses, the loop `continue`s before `allowed_by_rate()` is
called, so the rate state is completely unchanged; concretely, with the
rate limiter at its cap (`max = 3` filled at `t = 0`), five duplicate
events leave the rate state exactly as if they never occurred, and a
fresh event at `t = 6` is rate-limited either way. -/
theorem c4_dedup_gate_shields_rate (ttl window maxE t : Int) (key : String)
    (s : ProcState) (h : (dedupAllowed ttl key t s.dedup).1 = false) :
    ((noiseGates ttl window maxE t key s).1 = Outcome.dedupSuppressed ∧
     (noiseGates ttl window maxE t key s).2.rate = s.rate) ∧
    ((noiseRun 60 60 3 [(0, "a"), (0, "b"), (0, "c"), (1, "a"), (2, "a"),
        (3, "a"), (4, "a"), (5, "a"), (6, "d")] ⟨[], []⟩).1 =
      [Outcome.dispatched, Outcome.dispatched, Outcome.dispatched,
       Outcome.dedupSuppressed, Outcome.dedupSuppressed, Outcome.dedupSuppressed,
       Outcome.dedupSuppressed, Outcome.dedupSuppressed, Outcome.rateSuppressed] ∧
     (noiseRun 60 60 3 [(0, "a"), (0, "b"), (0, "c"), (1, "a"), (2, "a"),
        (3, "a"), (4, "a"), (5, "a"), (6, "d")] ⟨[], []⟩).2.rate =
      (noiseRun 60 60 3 [(0, "a"), (0, "b"), (0, "c"), (6, "d")] ⟨[], []⟩).2.rate) := by
  refine ⟨⟨?_, ?_⟩, by decide, by decide⟩
  · simp [noiseGates, h]
  · simp [noiseGates, h]

/-- C4 witness: a state whose dedup table already holds `"k"` (not yet
expired at `t = 10`): the event is suppressed by dedup and the rate state
`[7]` is untouched. -/
theorem c4_dedup_gate_shields_rate_witness :
    (dedupAllowed 60 "k" 10 (ProcState.mk [("k", 100)] [7]).dedup).1 = false ∧
    (noiseGates 60 60 30 10 "k" ⟨[("k", 100)], [7]⟩).1 = Outcome.dedupSuppressed ∧
    (noiseGates 60 60 30 10 "k" ⟨[("k", 100)], [7]⟩).2.rate = [7] :=
  ⟨by decide,
   (c4_dedup_gate_shields_rate 60 60 30 10 "k" ⟨[("k", 100)], [7]⟩ (by decide)).1.1,
   (c4_dedup_gate_shields_rate 60 60 30 10 "k" ⟨[("k", 100)], [7]⟩ (by decide)).1.2⟩

/-- C5: when the dedup gate suppresses (the key is present after the
sweep), the table is left exactly as the sweep left it: no entry is
rewritten, the suppressed key's entry keeps its original stored expiry,
and the sweep's survivors are exactly the entries of the old table whose
expiry exceeds the current time. -/
theorem c5_dedup_suppressed_frame (ttl t : Int) (key : String)
    (cache : List (String × Int))
    (h : (dedupAllowed ttl key t cache).1 = false) :
    (dedupAllowed ttl key t cache).2 = dedupEvict t cache ∧
    (∀ p : String × Int, p ∈ dedupEvict t cache ↔ p ∈ cache ∧ t < p.2) ∧
    (∀ e : Int, (key, e) ∈ cache → t < e →
       (key, e) ∈ (dedupAllowed ttl key t cache).2) := by
  by_cases hany : (dedupEvict t cache).any (fun p => p.1 == key) = true
  · refine ⟨by simp [dedupAllowed, hany], fun p => dedupEvict_mem t cache p, ?_⟩
    intro e he hlt
    have : (key, e) ∈ dedupEvict t cache := (dedupEvict_mem t cache (key, e)).mpr ⟨he, hlt⟩
    simpa [dedupAllowed, hany] using this
  · simp [dedupAllowed, hany] at h

/-- C5 witness: table `[("k", 100), ("j", 5)]` at `t = 10`: `"j"` is
evicted by the sweep, `"k"` suppresses the call and keeps expiry `100`. -/
theorem c5_dedup_suppressed_frame_witness :
    (dedupAllowed 60 "k" 10 [("k", 100), ("j", 5)]).1 = false ∧
    (dedupAllowed 60 "k" 10 [("k", 100), ("j", 5)]).2 =
      dedupEvict 10 [("k", 100), ("j", 5)] ∧
    ("k", 100) ∈ (dedupAllowed 60 "k" 10 [("k", 100), ("j", 5)]).2 :=
  ⟨by decide,
   (c5_dedup_suppressed_frame 60 10 "k" [("k", 100), ("j", 5)] (by decide)).1,
   (c5_dedup_suppressed_frame 60 10 "k" [("k", 100), ("j", 5)] (by decide)).2.2
     100 (by decide) (by decide)⟩

/-- C6: with `ttl_sec ≤ 0` every dedup call admits, for every key and
every non-decreasing sequence of call times (the stored expiry
`t + ttl ≤ t` is already due at the next call, so the sweep always
empties the table); the embedding is a total structurally recursive
function, so every call terminates. -/
theorem c6_dedup_nonpositive_ttl (ttl : Int) (httl : ttl ≤ 0)
    (calls : List (Int × String))
    (hmono : List.Chain' (fun a b => a.1 ≤ b.1) calls) :
    dedupResults ttl calls [] = List.replicate calls.length true := by
  rw [List.eq_replicate_iff]
  refine ⟨dedupResults_length ttl calls [], ?_⟩
  exact dedupResults_all_true_aux ttl httl calls [] hmono (by simp)

/-- C6 witness: `ttl = 0` with repeated key `"k"` at times `0, 0, 1`:
all three calls admit. -/
theorem c6_dedup_nonpositive_ttl_witness :
    (0 : Int) ≤ 0 ∧
    dedupResults 0 [(0, "k"), (0, "k"), (1, "k")] [] = List.replicate 3 true :=
  ⟨by decide,
   c6_dedup_nonpositive_ttl 0 (by decide) [(0, "k"), (0, "k"), (1, "k")]
     (by norm_num [List.chain'_cons])⟩

/-- The end-to-end example line of the spec (the `...` gaps are literal
text; the pattern's lazy gaps skip them). -/
def exampleLine : String :=
  "Thu, 09 Oct 2025 17:21:33 ... api route added to neighbor 172.31.192.1 ... : 187.120.203.0/24 next-hop 10.0.0.1 local-preference 210 community 53140:615"

/-- The same line with the action token upper-cased. -/
def exampleLineUpper : String :=
  "Thu, 09 Oct 2025 17:21:33 ... api route ADDED to neighbor 172.31.192.1 ... : 187.120.203.0/24 next-hop 10.0.0.1 local-preference 210 community 53140:615"

/-- C8: the example line, processed under the default configuration
(`ONLY_ACTIONS=added,removed`, TTL 60, window 60, max 30) from the fresh
state, yields exactly one admitted (dispatched) event, and the extracted
fields are exactly the ones named by the claim. -/
theorem c8_end_to_end_example :
    matchLine exampleLine =
      some ⟨"Thu, 09 Oct 2025 17:21:33", "added", "172.31.192.1",
            "187.120.203.0/24", "10.0.0.1", "210", "53140:615"⟩ ∧
    (processLines defaultOnlyActions 60 60 30 [(0, exampleLine)] ⟨[], []⟩).1 =
      [Outcome.dispatched] := by
  decide

/-- C10: matching is case-insensitive but the dedup key is built from the
raw matched action text: the two lines differing only in the case of the
action token produce different dedup keys, so the second line (10 seconds
after the first, well within the 60-second TTL) is NOT suppressed as a
duplicate — both are dispatched. -/
theorem c10_raw_action_dedup_key :
    ((matchLine exampleLine).map dedupKey =
       some "added|187.120.203.0/24|172.31.192.1" ∧
     (matchLine exampleLineUpper).map dedupKey =
       some "ADDED|187.120.203.0/24|172.31.192.1") ∧
    (processLines defaultOnlyActions 60 60 30
       [(0, exampleLine), (10, exampleLineUpper)] ⟨[], []⟩).1 =
      [Outcome.dispatched, Outcome.dispatched] := by
  decide

/-- Python `list.index(x)` returns the first occurrence: with `"--config"`
absent from the front part, the index is the front part's length. -/
theorem indexOf_flag_append (pre l : List String) (h : "--config" ∉ pre) :
    (pre ++ "--config" :: l).indexOf "--config" = pre.length := by
  induction pre with
  | nil => simp [List.indexOf_cons]
  | cons a pre ih =>
    have ha : (a == "--config") = false := by
      simp only [beq_eq_false_iff_ne, ne_eq]
      intro e
      exact h (by simp [e])
    simp only [List.cons_append, List.indexOf_cons, ha, cond_false, List.length_cons]
    rw [ih (fun hc => h (List.mem_cons_of_mem a hc))]

/-- C9: a `--config` flag with no following value makes `main` exit with
status 2 before any input line is processed (for every input stream);
a `--config` flag followed by a path resolves to that path instead of
`DEFAULT_CONFIG_PATH`. -/
theorem c9_config_flag (pre rest : List String) (p : String)
    (hpre : "--config" ∉ pre) (lines : List (Int × String)) :
    (resolveConfigPath (pre ++ ["--config"]) = none ∧
     runMain (pre ++ ["--config"]) lines = Except.error 2) ∧
    resolveConfigPath (pre ++ "--config" :: p :: rest) = some p := by
  have h1 : resolveConfigPath (pre ++ ["--config"]) = none := by
    rw [resolveConfigPath, if_pos (by simp), indexOf_flag_append pre [] hpre]
    have hn : (pre ++ ["--config"])[pre.length + 1]? = none := by
      apply List.getElem?_eq_none
      simp
    rw [hn]
  refine ⟨⟨h1, ?_⟩, ?_⟩
  · rw [runMain, h1]
  · rw [resolveConfigPath, if_pos (by simp),
        indexOf_flag_append pre (p :: rest) hpre]
    have hs : (pre ++ "--config" :: p :: rest)[pre.length + 1]? = some p := by
      rw [List.getElem?_append_right (by omega)]
      simp
    rw [hs]

/-- C9 witness: `["-v", "--config"]` exits with status 2 without touching
the input, and `["-v", "--config", "/tmp/x.cfg"]` resolves to
`/tmp/x.cfg`. -/
theorem c9_config_flag_witness :
    "--config" ∉ (["-v"] : List String) ∧
    resolveConfigPath ["-v", "--config"] = none ∧
    runMain ["-v", "--config"] [(0, exampleLine)] = Except.error 2 ∧
    resolveConfigPath ["-v", "--config", "/tmp/x.cfg"] = some "/tmp/x.cfg" :=
  ⟨by decide,
   (c9_config_flag ["-v"] [] "/tmp/x.cfg" (by decide) [(0, exampleLine)]).1.1,
   (c9_config_flag ["-v"] [] "/tmp/x.cfg" (by decide) [(0, exampleLine)]).1.2,
   (c9_config_flag ["-v"] [] "/tmp/x.cfg" (by decide) [(0, exampleLine)]).2⟩

/-! ## Matcher capture lemmas (no matched group is empty) -/

/-- A nonempty character list makes a nonempty string. -/
theorem stringMk_ne_empty (l : List Char) (h : l ≠ []) : String.mk l ≠ "" := by
  intro hc
  apply h
  have := congrArg String.data hc
  simpa using this

/-- The quantifier `plus1` consumes at least one character. -/
theorem plus1_ne_nil (p : Char → Bool) (s t r : List Char)
    (h : plus1 p s = some (t, r)) : t ≠ [] := by
  simp only [plus1] at h
  split at h
  · simp at h
  · next hne =>
    simp only [Option.some.injEq, Prod.mk.injEq] at h
    rw [← h.1]
    simpa using hne

/-- The quantifier `digits1To` consumes at least one character. -/
theorem digits1To_ne_nil (m : Nat) (s t r : List Char)
    (h : digits1To m s = some (t, r)) : t ≠ [] := by
  simp only [digits1To] at h
  split at h
  · simp at h
  · next hne =>
    simp only [Option.some.injEq, Prod.mk.injEq] at h
    rw [← h.1]
    simpa using hne

/-- The literal matcher `litCI` consumes exactly as many characters as its pattern. -/
theorem litCI_length :
    ∀ (pat s t r : List Char), litCI pat s = some (t, r) → t.length = pat.length := by
  intro pat
  induction pat with
  | nil =>
    intro s t r h
    simp only [litCI, Option.some.injEq, Prod.mk.injEq] at h
    rw [← h.1]
  | cons p ps ih =>
    intro s t r h
    cases s with
    | nil => simp [litCI] at h
    | cons c cs =>
      simp only [litCI] at h
      split at h
      · cases hx : litCI ps cs with
        | none => rw [hx] at h; simp at h
        | some v =>
          obtain ⟨a, b⟩ := v
          rw [hx] at h
          simp only [Option.some.injEq, Prod.mk.injEq] at h
          rw [← h.1]
          simp [ih cs a b hx]
      · simp at h

/-- The group `ip4` captures a nonempty dotted quad. -/
theorem ip4_ne_nil (s t r : List Char) (h : ip4 s = some (t, r)) : t ≠ [] := by
  simp only [ip4, Option.bind_eq_bind, Option.bind_eq_some] at h
  obtain ⟨⟨a, r1⟩, h1, h⟩ := h
  obtain ⟨r2, h2, h⟩ := h
  obtain ⟨⟨b, r3⟩, h3, h⟩ := h
  obtain ⟨r4, h4, h⟩ := h
  obtain ⟨⟨c, r5⟩, h5, h⟩ := h
  obtain ⟨r6, h6, h⟩ := h
  obtain ⟨⟨d, r7⟩, h7, h⟩ := h
  simp only [Option.some.injEq, Prod.mk.injEq] at h
  rw [← h.1]
  simp [List.append_eq_nil, digits1To_ne_nil 3 s a r1 h1]

/-- The matched action word is nonempty (five or seven characters). -/
theorem matchActionWord_ne_nil (s t r : List Char)
    (h : matchActionWord s = some (t, r)) : t ≠ [] := by
  simp only [matchActionWord] at h
  cases hx : litCI "added".data s with
  | some v =>
    rw [hx] at h
    simp only [Option.orElse] at h
    obtain ⟨a, b⟩ := v
    simp only [Option.some.injEq, Prod.mk.injEq] at h
    have := litCI_length "added".data s a b hx
    intro hnil
    rw [h.1, hnil] at this
    simp at this
  | none =>
    rw [hx] at h
    simp only [Option.orElse] at h
    have := litCI_length "removed".data s t r h
    intro hnil
    rw [hnil] at this
    simp at this

/-- The timestamp capture is nonempty (it contains the comma). -/
theorem matchTsDate_ne_nil (s t r : List Char)
    (h : matchTsDate s = some (t, r)) : t ≠ [] := by
  simp only [matchTsDate, Option.bind_eq_bind, Option.bind_eq_some] at h
  obtain ⟨⟨w1, r1⟩, h1, h⟩ := h
  obtain ⟨r2, h2, h⟩ := h
  obtain ⟨⟨s1, r3⟩, h3, h⟩ := h
  obtain ⟨⟨d1, r4⟩, h4, h⟩ := h
  obtain ⟨⟨s2, r5⟩, h5, h⟩ := h
  obtain ⟨⟨w2, r6⟩, h6, h⟩ := h
  obtain ⟨⟨s3, r7⟩, h7, h⟩ := h
  simp only [Option.some.injEq, Prod.mk.injEq] at h
  rw [← h.1]
  simp [List.append_eq_nil]

/-- The full timestamp capture is nonempty. -/
theorem matchTs_ne_nil (s t r : List Char)
    (h : matchTs s = some (t, r)) : t ≠ [] := by
  simp only [matchTs, Option.bind_eq_bind, Option.bind_eq_some] at h
  obtain ⟨⟨a, r1⟩, h1, h⟩ := h
  obtain ⟨⟨b, r2⟩, h2, h⟩ := h
  simp only [Option.some.injEq, Prod.mk.injEq] at h
  rw [← h.1]
  simp [List.append_eq_nil, matchTsDate_ne_nil s a r1 h1]

/-- The prefix capture is nonempty (it contains the slash). -/
theorem parsePrefixPart_ne_nil (s t r : List Char)
    (h : parsePrefixPart s = some (t, r)) : t ≠ [] := by
  simp only [parsePrefixPart, Option.bind_eq_bind, Option.bind_eq_some] at h
  obtain ⟨⟨w, r1⟩, h1, h⟩ := h
  obtain ⟨⟨ipp, r2⟩, h2, h⟩ := h
  obtain ⟨r3, h3, h⟩ := h
  obtain ⟨⟨len2, r4⟩, h4, h⟩ := h
  simp only [Option.some.injEq, Prod.mk.injEq] at h
  rw [← h.1]
  simp [List.append_eq_nil]

/-- The next-hop capture is nonempty. -/
theorem parseNextHopPart_ne_nil (s t r : List Char)
    (h : parseNextHopPart s = some (t, r)) : t ≠ [] := by
  simp only [parseNextHopPart, Option.bind_eq_bind, Option.bind_eq_some] at h
  obtain ⟨⟨w1, r1⟩, h1, h⟩ := h
  obtain ⟨⟨w2, r2⟩, h2, h⟩ := h
  obtain ⟨⟨w3, r3⟩, h3, h⟩ := h
  obtain ⟨⟨nh, r4⟩, h4, h⟩ := h
  simp only [Option.some.injEq, Prod.mk.injEq] at h
  rw [← h.1]
  exact ip4_ne_nil r3 nh r4 h4

/-- The local-preference capture is nonempty. -/
theorem parseLprefPart_ne_nil (s t r : List Char)
    (h : parseLprefPart s = some (t, r)) : t ≠ [] := by
  simp only [parseLprefPart, Option.bind_eq_bind, Option.bind_eq_some] at h
  obtain ⟨⟨w1, r1⟩, h1, h⟩ := h
  obtain ⟨⟨w2, r2⟩, h2, h⟩ := h
  obtain ⟨⟨w3, r3⟩, h3, h⟩ := h
  obtain ⟨⟨lp, r4⟩, h4, h⟩ := h
  simp only [Option.some.injEq, Prod.mk.injEq] at h
  rw [← h.1]
  exact plus1_ne_nil Char.isDigit r3 lp r4 h4

/-- The community capture is nonempty. -/
theorem parseCommPart_ne_nil (s t r : List Char)
    (h : parseCommPart s = some (t, r)) : t ≠ [] := by
  simp only [parseCommPart, Option.bind_eq_bind, Option.bind_eq_some] at h
  obtain ⟨⟨w1, r1⟩, h1, h⟩ := h
  obtain ⟨⟨w2, r2⟩, h2, h⟩ := h
  obtain ⟨⟨w3, r3⟩, h3, h⟩ := h
  obtain ⟨⟨cm, r4⟩, h4, h⟩ := h
  simp only [Option.some.injEq, Prod.mk.injEq] at h
  rw [← h.1]
  exact plus1_ne_nil _ r3 cm r4 h4

/-- All four captures of the tail after the colon are nonempty. -/
theorem parseAfterColon_ne_nil (s : List Char) (pf nh lp cm : List Char)
    (h : parseAfterColon s = some (pf, nh, lp, cm)) :
    pf ≠ [] ∧ nh ≠ [] ∧ lp ≠ [] ∧ cm ≠ [] := by
  simp only [parseAfterColon, Option.bind_eq_bind, Option.bind_eq_some] at h
  obtain ⟨⟨pf1, r1⟩, h1, h⟩ := h
  obtain ⟨⟨nh1, r2⟩, h2, h⟩ := h
  obtain ⟨⟨lp1, r3⟩, h3, h⟩ := h
  obtain ⟨⟨cm1, r4⟩, h4, h⟩ := h
  simp only [Option.some.injEq, Prod.mk.injEq] at h
  obtain ⟨e1, e2, e3, e4⟩ := h
  exact ⟨e1 ▸ parsePrefixPart_ne_nil _ _ _ h1, e2 ▸ parseNextHopPart_ne_nil _ _ _ h2,
         e3 ▸ parseLprefPart_ne_nil _ _ _ h3, e4 ▸ parseCommPart_ne_nil _ _ _ h4⟩

/-- The colon-scan inherits nonempty captures from the tail parse. -/
theorem findColon_ne_nil (s : List Char) :
    ∀ pf nh lp cm, findColon s = some (pf, nh, lp, cm) →
      pf ≠ [] ∧ nh ≠ [] ∧ lp ≠ [] ∧ cm ≠ [] := by
  induction s with
  | nil => intro pf nh lp cm h; simp [findColon] at h
  | cons c cs ih =>
    intro pf nh lp cm h
    simp only [findColon] at h
    cases hx : (if c = ':' then parseAfterColon cs else none) with
    | some v =>
      rw [hx] at h
      simp only [Option.orElse, Option.some.injEq] at h
      subst h
      split at hx
      · exact parseAfterColon_ne_nil cs pf nh lp cm hx
      · simp at hx
    | none =>
      rw [hx] at h
      simp only [Option.orElse] at h
      split at h
      · simp at h
      · exact ih pf nh lp cm h

/-- All six captures of `afterApi` are nonempty. -/
theorem afterApi_ne_nil (s : List Char) (act nb pf nh lp cm : List Char)
    (h : afterApi s = some (act, nb, pf, nh, lp, cm)) :
    act ≠ [] ∧ nb ≠ [] ∧ pf ≠ [] ∧ nh ≠ [] ∧ lp ≠ [] ∧ cm ≠ [] := by
  simp only [afterApi, Option.bind_eq_bind, Option.bind_eq_some] at h
  obtain ⟨r1, h1, h⟩ := h
  obtain ⟨⟨act1, r2⟩, h2, h⟩ := h
  obtain ⟨r3, h3, h⟩ := h
  obtain ⟨⟨nb1, r4⟩, h4, h⟩ := h
  obtain ⟨⟨pf1, nh1, lp1, cm1⟩, h5, h⟩ := h
  simp only [Option.some.injEq, Prod.mk.injEq] at h
  obtain ⟨e1, e2, e3, e4, e5, e6⟩ := h
  obtain ⟨q1, q2, q3, q4⟩ := findColon_ne_nil r4 _ _ _ _ h5
  exact ⟨e1 ▸ matchActionWord_ne_nil _ _ _ h2, e2 ▸ ip4_ne_nil _ _ _ h4,
         e3 ▸ q1, e4 ▸ q2, e5 ▸ q3, e6 ▸ q4⟩

/-- The api-scan inherits nonempty captures from `afterApi`. -/
theorem findApi_ne_nil (s : List Char) :
    ∀ (prev : Char) (act nb pf nh lp cm : List Char),
      findApi prev s = some (act, nb, pf, nh, lp, cm) →
      act ≠ [] ∧ nb ≠ [] ∧ pf ≠ [] ∧ nh ≠ [] ∧ lp ≠ [] ∧ cm ≠ [] := by
  induction s with
  | nil => intro prev act nb pf nh lp cm h; simp [findApi] at h
  | cons c cs ih =>
    intro prev act nb pf nh lp cm h
    simp only [findApi] at h
    cases hx : (if isWordC prev then none else afterApi (c :: cs)) with
    | some v =>
      rw [hx] at h
      simp only [Option.orElse, Option.some.injEq] at h
      subst h
      split at hx
      · simp at hx
      · exact afterApi_ne_nil (c :: cs) act nb pf nh lp cm hx
    | none =>
      rw [hx] at h
      simp only [Option.orElse] at h
      split at h
      · simp at h
      · exact ih c act nb pf nh lp cm h

/-- A line with the next-hop field missing. -/
def badLineMissingField : String :=
  "Thu, 09 Oct 2025 17:21:33 ... api route added to neighbor 172.31.192.1 ... : 187.120.203.0/24 local-preference 210 community 53140:615"

/-- A line with a non-numeric local-preference value. -/
def badLineNonNumericLpref : String :=
  "Thu, 09 Oct 2025 17:21:33 ... api route added to neighbor 172.31.192.1 ... : 187.120.203.0/24 next-hop 10.0.0.1 local-preference abc community 53140:615"

/-- A line with a malformed (four-digit octet) neighbor address. -/
def badLineMalformedIp : String :=
  "Thu, 09 Oct 2025 17:21:33 ... api route added to neighbor 1234.56.78.90 ... : 187.120.203.0/24 next-hop 10.0.0.1 local-preference 210 community 53140:615"

/-- C7: the Line Matcher is a total function: on every input line it
returns either "no match" or a full `RouteMatch` whose seven captured
fields are all nonempty (never a partial event, and — being a total Lean
function — never an exception); the three malformed-line families of the
claim (missing field, non-numeric local-preference, malformed IP) are
rejected. -/
theorem c7_matcher_total_no_partial :
    (∀ line : String, matchLine line = none ∨ ∃ e, matchLine line = some e) ∧
    (∀ (line : String) (e : RouteMatch), matchLine line = some e →
       e.ts ≠ "" ∧ e.action ≠ "" ∧ e.neighbor ≠ "" ∧ e.pfx ≠ "" ∧
       e.nexthop ≠ "" ∧ e.lpref ≠ "" ∧ e.comm ≠ "") ∧
    (matchLine badLineMissingField = none ∧
     matchLine badLineNonNumericLpref = none ∧
     matchLine badLineMalformedIp = none) := by
  refine ⟨?_, ?_, by decide, by decide, by decide⟩
  · intro line
    cases h : matchLine line with
    | none => exact Or.inl rfl
    | some e => exact Or.inr ⟨e, rfl⟩
  · intro line e h
    simp only [matchLine, Option.bind_eq_bind, Option.bind_eq_some] at h
    obtain ⟨⟨tsC, rest⟩, h1, h⟩ := h
    obtain ⟨⟨act, nb, pf, nh, lp, cm⟩, h2, h⟩ := h
    simp only [Option.some.injEq] at h
    obtain ⟨q1, q2, q3, q4, q5, q6⟩ := findApi_ne_nil rest (tsC.reverse.headD '0')
      act nb pf nh lp cm h2
    rw [← h]
    exact ⟨stringMk_ne_empty tsC (matchTs_ne_nil line.data tsC rest h1),
           stringMk_ne_empty act q1, stringMk_ne_empty nb q2,
           stringMk_ne_empty pf q3, stringMk_ne_empty nh q4,
           stringMk_ne_empty lp q5, stringMk_ne_empty cm q6⟩

/-- C7 witness: the example line is matched, and the theorem yields the
nonemptiness of all its extracted fields. -/
theorem c7_matcher_total_no_partial_witness :
    matchLine exampleLine =
      some ⟨"Thu, 09 Oct 2025 17:21:33", "added", "172.31.192.1",
            "187.120.203.0/24", "10.0.0.1", "210", "53140:615"⟩ ∧
    (("Thu, 09 Oct 2025 17:21:33" : String) ≠ "" ∧
     ("added" : String) ≠ "" ∧ ("172.31.192.1" : String) ≠ "" ∧
     ("187.120.203.0/24" : String) ≠ "" ∧ ("10.0.0.1" : String) ≠ "" ∧
     ("210" : String) ≠ "" ∧ ("53140:615" : String) ≠ "") :=
  ⟨by decide,
   c7_matcher_total_no_partial.2.1 exampleLine
     ⟨"Thu, 09 Oct 2025 17:21:33", "added", "172.31.192.1",
      "187.120.203.0/24", "10.0.0.1", "210", "53140:615"⟩ (by decide)⟩
